import Mathlib

/-!
# Verification of the getpack resource lifecycle

A shallow embedding of `src/getpack/resource.py` (and the extraction-map part
of `src/getpack/extraction.py`): the local cache state machine
(`LocalResource.deploy` / `cleanup` / `get_available_versions`), the hybrid
in-process/inter-process lock (`HybridLock`), `Resource.provide`,
`ArchivedResource._deploy_to`, `PyPiPackage.release_info`,
`PythonPackage.activate` and the keyword-argument constructors.

Conventions of the embedding:
* Python strings are Lean `String`s; the string predicates `str.endswith`,
  `str.startswith`, substring containment (`in`) and slicing are embedded
  through the underlying `List Char` (`String.data`), which has the same
  semantics and is convenient for the kernel to evaluate.
* The filesystem is modelled as the directory that contains the canonical
  path of one resource (`path.parent`): a list of named entries, each a
  directory or a plain file, plus a flag recording whether that parent
  directory itself exists.  Directory contents are abstracted to a list of
  file names (all the claims need is that the deployed payload arrives
  unchanged under the canonical name).
* Randomness (`random.randrange`) is an oracle `rng : Nat → String` giving
  the successive random names drawn by `deploy`; fallible side effects
  (`_deploy_to`, `fasteners` lock acquisition, `os.unlink`, `__import__`)
  are oracles telling whether the call raises.
-/

/-- `str.endswith(post)` embedded on the character lists. -/
def strEndsWith (s post : String) : Bool :=
  post.data.isSuffixOf s.data

/-- `str.startswith(pre)` embedded on the character lists. -/
def strStartsWith (s pre : String) : Bool :=
  pre.data.isPrefixOf s.data

/-- Python substring containment `sub in s` on character lists. -/
def listIsInfixOf (sub l : List Char) : Bool :=
  l.tails.any (fun t => sub.isPrefixOf t)

/-- `sub in s` for strings. -/
def strContains (s sub : String) : Bool :=
  listIsInfixOf sub.data s.data

/-! ## Filesystem model -/

/-- One immediate child of the parent directory of the canonical path.
`content` abstracts the files stored inside a directory entry. -/
structure Entry where
  name : String
  isDir : Bool
  content : List String
deriving DecidableEq

/-- The parent directory of `self.path`: whether it exists
(`self.path.parent.is_dir()`), and its children. -/
structure FS where
  parentExists : Bool
  entries : List Entry
deriving DecidableEq

/-- `(path.parent / n).is_dir()`. -/
def FS.isDirAt (fs : FS) (n : String) : Bool :=
  fs.entries.any fun e => e.name == n && e.isDir

/-- `(path.parent / n).exists()`: any entry (file or directory) named `n`. -/
def FS.existsAt (fs : FS) (n : String) : Bool :=
  fs.entries.any fun e => e.name == n

/-- `(path.parent / n).mkdir(parents=True)`: creates the directory and its
parent.  Callers check non-existence first; `deploy` models the
`FileExistsError` case separately. -/
def FS.mkdirAt (fs : FS) (n : String) : FS :=
  { parentExists := true, entries := ⟨n, true, []⟩ :: fs.entries }

/-- `shutil.rmtree(path.parent / n)`. -/
def FS.rmtreeAt (fs : FS) (n : String) : FS :=
  { fs with entries := fs.entries.filter fun e => e.name != n }

/-- `_deploy_to(path.parent / n)` writing payload `c` into the directory. -/
def FS.setContentAt (fs : FS) (n : String) (c : List String) : FS :=
  { fs with entries := fs.entries.map fun e =>
      if e.name == n then { e with content := c } else e }

/-- `(path.parent / src).rename(path.parent / dst)`.  The caller rules out
the failing case (destination occupied by a non-directory). -/
def FS.renameAt (fs : FS) (src dst : String) : FS :=
  match fs.entries.find? (fun e => e.name == src) with
  | none => fs
  | some e =>
    { fs with entries :=
        ⟨dst, e.isDir, e.content⟩ ::
          ((fs.entries.filter fun x => x.name != src).filter
            fun x => x.name != dst) }

/-- Content of the directory entry named `n`, if present. -/
def FS.dirContentAt (fs : FS) (n : String) : Option (List String) :=
  (fs.entries.find? fun e => e.name == n && e.isDir).map (·.content)

/-- `LocalResource.get_available_versions`:
```
if not self.path.parent.is_dir(): return []
return [i.name for i in self.path.parent.iterdir()
        if not i.name.endswith('.temp')]
``` -/
def getAvailableVersions (fs : FS) : List String :=
  if fs.parentExists then
    (fs.entries.filter fun e => !strEndsWith e.name ".temp").map (·.name)
  else []

/-- The filesystem part of `LocalResource.cleanup`:
`if self.path.is_dir(): shutil.rmtree(str(self.path))`
(the `_available = False` part is modelled in the `provide` state). -/
def cleanupFS (version : String) (fs : FS) : FS :=
  if fs.isDirAt version then fs.rmtreeAt version else fs

/-- `'{:020x}.temp'.format(...)`: the temp-directory name built from a
random stem. -/
def tempName (s : String) : String := s ++ ".temp"

/-- The `for _ in range(fuel)` search of `deploy`: starting at draw index
`i`, return the index of the first drawn name whose temp directory does not
already exist (`if not temp_path.is_dir()`), or `none` when the budget is
exhausted. -/
def findFreeTemp (fs : FS) (rng : Nat → String) : Nat → Nat → Option Nat
  | _, 0 => none
  | i, fuel + 1 =>
    if fs.isDirAt (tempName (rng i)) then findFreeTemp fs rng (i + 1) fuel
    else some i

/-- Outcome of `LocalResource.deploy`, carrying the filesystem left behind.

* `ok`: normal return.
* `tempFail last fs`: the 100-attempt loop was exhausted;
  `Exception('Failed to find empty temp dir (last: ...)')` naming `last`.
* `mkdirFail fs`: the chosen temp path existed as a non-directory, so
  `temp_path.mkdir(parents=True)` raised `FileExistsError`.
* `extractFail fs`: `self._deploy_to(temp_path)` raised.
* `renameFail fs`: the canonical path was occupied by a non-directory and
  `temp_path.rename(self.path)` raised. -/
inductive DeployResult where
  | ok (fs : FS)
  | tempFail (lastPath : String) (fs : FS)
  | mkdirFail (fs : FS)
  | extractFail (fs : FS)
  | renameFail (fs : FS)
deriving DecidableEq

/-- The filesystem component of a deploy outcome. -/
def DeployResult.fs : DeployResult → FS
  | .ok fs => fs
  | .tempFail _ fs => fs
  | .mkdirFail fs => fs
  | .extractFail fs => fs
  | .renameFail fs => fs

/-- Whether the deploy returned normally. -/
def DeployResult.isOk : DeployResult → Bool
  | .ok _ => true
  | _ => false

/-- The `except Exception:` handler of `deploy`:
`if temp_path and temp_path.is_dir(): shutil.rmtree(str(temp_path))`. -/
def deployExcept (tempPath : Option String) (fs : FS) : FS :=
  match tempPath with
  | some t => if fs.isDirAt t then fs.rmtreeAt t else fs
  | none => fs

/-- `LocalResource.deploy`.  `payload` is the oracle for
`self._deploy_to(temp_path)`: `none` means that call raises, `some c` means
it fills the temp directory with content `c`.  `rng` supplies the
successive random 20-hex-digit stems. -/
def deploy (version : String) (payload : Option (List String))
    (rng : Nat → String) (fs : FS) : DeployResult :=
  -- self.cleanup()
  let fs := cleanupFS version fs
  match findFreeTemp fs rng 0 100 with
  | none =>
    -- for-else: raise Exception('Failed to find empty temp dir (last: …)');
    -- the last attempted path is the 100th drawn name, and the outer
    -- handler removes it (it exists as a directory, that is why the loop
    -- exhausted).
    let t := tempName (rng 99)
    .tempFail t (deployExcept (some t) fs)
  | some i =>
    let t := tempName (rng i)
    if fs.existsAt t then
      -- temp path exists as a plain file: mkdir raises FileExistsError,
      -- the handler finds `temp_path.is_dir()` false and re-raises.
      .mkdirFail (deployExcept (some t) fs)
    else
      let fs1 := fs.mkdirAt t
      match payload with
      | none => .extractFail (deployExcept (some t) fs1)
      | some c =>
        let fs2 := fs1.setContentAt t c
        -- if not self.path.parent.is_dir(): self.path.parent.mkdir(...)
        let fs3 := if fs2.parentExists then fs2
                   else { fs2 with parentExists := true }
        if fs3.existsAt version && !fs3.isDirAt version then
          -- rename onto an existing non-directory raises
          .renameFail (deployExcept (some t) fs3)
        else
          .ok (fs3.renameAt t version)

/-! ## HybridLock -/

/-- State of one `HybridLock`: the reentrancy counter, whether this process
holds the `fasteners.InterProcessLock`, and whether the backing
`<path>.lock` file exists. -/
structure LockState where
  counter : Int
  osHeld : Bool
  fileExists : Bool
deriving DecidableEq

/-- Observable OS-level operations of the lock. -/
inductive LockEvent where
  | osAcquire
  | osRelease
  | unlinkAttempt
deriving DecidableEq

/-- Result of `HybridLock.__enter__`: whether it returned normally, the
state left behind, and the OS-level operations performed (in order). -/
structure EnterResult where
  ok : Bool
  state : LockState
  events : List LockEvent
deriving DecidableEq

/-- `HybridLock.__enter__` (after the `threading.RLock` is taken; the RLock
itself is the Python runtime's reentrant mutex and never blocks a thread
that already holds it, so reentrant entry reduces to the counter update
below).  `fail1`/`fail2` are the oracles for the two
`self.file_lock.acquire()` attempts raising. -/
def hlEnter (fail1 fail2 : Bool) (st : LockState) : EnterResult :=
  let st := { st with counter := st.counter + 1 }
  if st.counter = 1 then
    if fail1 then
      if fail2 then
        -- second acquire raises too: the exception propagates
        ⟨false, st, [.osAcquire, .osAcquire]⟩
      else
        ⟨true, { st with osHeld := true, fileExists := true },
          [.osAcquire, .osAcquire]⟩
    else
      ⟨true, { st with osHeld := true, fileExists := true }, [.osAcquire]⟩
  else
    ⟨true, st, []⟩

/-- `HybridLock.__exit__`.  `unlinkFails` is the oracle for
`os.unlink(self.key)` raising; the failure is swallowed, so the function is
total. -/
def hlExit (unlinkFails : Bool) (st : LockState) : LockState × List LockEvent :=
  let st := { st with counter := st.counter - 1 }
  if st.counter = 0 then
    let fe := if unlinkFails then st.fileExists else false
    ({ st with osHeld := false, fileExists := fe },
      [.osRelease, .unlinkAttempt])
  else
    (st, [])

/-- `HybridLock.__init__` computes `key = path.as_posix() + '.lock'`; the
basename of that key relative to `path.parent`, for the canonical path
`path.parent / version`, is: -/
def lockFileName (version : String) : String := version ++ ".lock"

/-! ## Resource.provide -/

/-- The in-process state of one `Resource` object together with the cache
directory it owns. -/
structure RState where
  available : Bool
  name : String
  version : String
  fs : FS
deriving DecidableEq

/-- Outcome of `Resource.provide`.  `deployed` records whether `deploy()`
ran (the only network / extraction I/O of `provide`). -/
inductive ProvideResult where
  | ok (st : RState) (deployed : Bool)
  | assertFailName (st : RState)
  | assertFailVersion (st : RState)
  | deployRaised (st : RState)
deriving DecidableEq

/-- `Resource.provide`, specialised to a `LocalResource` (so the presence
check is `LocalResource.get_available_versions` and deployment is
`LocalResource.deploy`).  The identity lock (`with self.lock:`) guards the
body from the presence re-check through `deploy`; the model is the
single-owner execution of that critical section. -/
def provide (payload : Option (List String)) (rng : Nat → String)
    (st : RState) : ProvideResult :=
  if st.available then .ok st false
  else if st.name = "" then .assertFailName st
  else if st.version = "" then .assertFailVersion st
  else if st.version ∈ getAvailableVersions st.fs then
    .ok { st with available := true } false
  else
    match deploy st.version payload rng st.fs with
    | .ok fs' => .ok { st with fs := fs', available := true } true
    | r => .deployRaised { st with fs := r.fs }

/-! ## PyPiPackage.release_info -/

/-- One record of `data['releases'][self.version]`. -/
structure ReleaseRecord where
  filename : String
  python_version : String
  url : String
deriving DecidableEq

/-- `\w` of Python's `re` (ASCII range, which covers wheel filenames). -/
def isWordChar (c : Char) : Bool := c.isAlphanum || c == '_'

/-- `re.search(r'\Wany\W', s)`: somewhere in `s`, the letters `any`
surrounded by non-word characters on both sides. -/
def hasAnyTag (l : List Char) : Bool :=
  l.tails.any fun t =>
    match t with
    | c1 :: 'a' :: 'n' :: 'y' :: c2 :: _ => !isWordChar c1 && !isWordChar c2
    | _ => false

/-- The hardcoded `platform = 'win_amd64'`. -/
def platformTag : String := "win_amd64"

/-- The platform filter of `release_info`:
`[r for r in releases if platform in r['filename']
  or re.search(r'\Wany\W', r['filename'])]`. -/
def filterPlatform (releases : List ReleaseRecord) : List ReleaseRecord :=
  releases.filter fun r =>
    strContains r.filename platformTag || hasAnyTag r.filename.data

/-- The selection step of `release_info`: a single release published as
`python_version == 'source'` is accepted as is, otherwise the list is
filtered by platform / `any` tag. -/
def selectReleases (releases : List ReleaseRecord) : List ReleaseRecord :=
  match releases with
  | [r] => if r.python_version == "source" then [r] else filterPlatform [r]
  | _ => filterPlatform releases

/-- The assertion message
`'No unique release available from {}'.format(', '.join(...))` listing every
candidate of the version, marking the ones that survived the filter. -/
def releaseErrMsg (all selected : List ReleaseRecord) : String :=
  "No unique release available from " ++
    String.intercalate ", "
      (all.map fun r =>
        r.filename ++ (if selected.contains r then " (selected)" else ""))

/-- `PyPiPackage.release_info` (the pure part, after the JSON fetch):
given `data['releases'][self.version]`, either the selected record
(`releases[0]` of the post-filter list) or the `AssertionError` raised when
`len(releases) >= 1` fails. -/
def releaseInfo (releases : List ReleaseRecord) : Except String ReleaseRecord :=
  let selected := selectReleases releases
  match selected with
  | r :: _ => .ok r
  | [] => .error (releaseErrMsg releases selected)

/-! ## ArchivedResource._deploy_to -/

/-- The inner `for k, v in self.archive_extraction.items():` loop: the first
key `k` (after `k.format(self=self)`, modelled by the substitution oracle
`subst`) that is a prefix of `filename` yields
`v['path'] + filename[len(k):]`; no match means the entry is skipped.
Paths are the character lists of the Python strings. -/
def destFor (subst : List Char → List Char)
    (extraction : List (List Char × List Char)) (filename : List Char) :
    Option (List Char) :=
  match extraction with
  | [] => none
  | (k, p) :: rest =>
    let k := subst k
    if k.isPrefixOf filename then some (p ++ filename.drop k.length)
    else destFor subst rest filename

/-- The per-entry loop of `ArchivedResource._deploy_to` over
`extractor.get_file_list()` (which lists files only, directories already
excluded by the extractors).  Returns the destination paths written, in
order, or the `AssertionError` from
`assert dest_path and dest_path[0] != '/'`. -/
def deployTo (subst : List Char → List Char)
    (extraction : List (List Char × List Char)) :
    List (List Char) → Except Unit (List (List Char))
  | [] => .ok []
  | f :: rest =>
    match destFor subst extraction f with
    | none => deployTo subst extraction rest
    | some d =>
      if d.isEmpty || d.head? == some '/' then .error ()
      else
        match deployTo subst extraction rest with
        | .error e => .error e
        | .ok ds => .ok (d :: ds)

/-! ## PythonPackage.activate -/

/-- A `PythonPackage` object: its name, its `_activated` and `_available`
flags and its declared `requirements` (themselves packages). -/
inductive Pkg where
  | mk (name : String) (activated : Bool) (available : Bool)
      (requirements : List Pkg)

/-- The `_activated` flag of a package. -/
def Pkg.activatedF : Pkg → Bool
  | .mk _ a _ _ => a

/-- The name of a package. -/
def Pkg.nameF : Pkg → String
  | .mk n _ _ _ => n

/-- Result of `activate()` on one package: the mutated object, the names
passed to `__import__` (in call order), and whether an exception
propagated. -/
structure AResult where
  state : Pkg
  events : List String
  raised : Bool

/-- Result of activating a requirement list. -/
structure LResult where
  states : List Pkg
  events : List String
  raised : Bool

mutual

/-- `PythonPackage.activate`:
```
if self._activated: return
self.provide()
[r.activate() for r in self.requirements]
__import__(self.name)
self._activated = True
```
`ok` is the oracle for `__import__` succeeding.  `self.provide()` is
modelled by its effect on the `_available` flag (its disk behaviour is the
`provide` model above); a failed `__import__` is still an `events` entry,
with `raised = true`. -/
def activateP (ok : String → Bool) : Pkg → AResult
  | .mk n a av reqs =>
    if a then ⟨.mk n a av reqs, [], false⟩
    else
      let r := activateL ok reqs
      if r.raised then ⟨.mk n false true r.states, r.events, true⟩
      else if ok n then ⟨.mk n true true r.states, r.events ++ [n], false⟩
      else ⟨.mk n false true r.states, r.events ++ [n], true⟩

/-- The `[r.activate() for r in self.requirements]` comprehension: activates
left to right; the first exception aborts the comprehension (the remaining
requirements are untouched) and propagates. -/
def activateL (ok : String → Bool) : List Pkg → LResult
  | [] => ⟨[], [], false⟩
  | p :: ps =>
    let r := activateP ok p
    if r.raised then ⟨r.state :: ps, r.events, true⟩
    else
      let rs := activateL ok ps
      ⟨r.state :: rs.states, r.events ++ rs.events, rs.raised⟩

end

/-! ## Constructors -/

/-- `Resource.__init__`: attributes are a lookup from attribute name to
value (falling back to the class-level default); keyword values are
`Option α` with `none` for Python `None`:
```
for k, v in kwargs.items():
    if v is not None:
        setattr(self, k, v)
``` -/
def resourceInit {α : Type} (defaults : String → Option α)
    (kwargs : List (String × Option α)) : String → Option α :=
  kwargs.foldl
    (fun attrs kv =>
      match kv.2 with
      | none => attrs
      | some v => fun k => if k = kv.1 then some v else attrs k)
    defaults

/-- The kwargs dictionary built by `PythonPackage.__init__`:
```
if name: kwargs['name'] = name
if version: kwargs['version'] = version
```
`truthy` is Python truthiness on the value type (for strings: non-empty);
`name`/`version` passed as `None` are `none` and falsy. -/
def pyInitKwargs {α : Type} (truthy : α → Bool) (name version : Option α)
    (kwargs : List (String × Option α)) : List (String × Option α) :=
  let kwargs := match name with
    | some v => if truthy v then kwargs ++ [("name", some v)] else kwargs
    | none => kwargs
  match version with
  | some v => if truthy v then kwargs ++ [("version", some v)] else kwargs
  | none => kwargs

/-- `PythonPackage.__init__(name, version, **kwargs)` =
`super().__init__(**kwargs')` with the kwargs above. -/
def pythonPackageInit {α : Type} (defaults : String → Option α)
    (truthy : α → Bool) (name version : Option α)
    (kwargs : List (String × Option α)) : String → Option α :=
  resourceInit defaults (pyInitKwargs truthy name version kwargs)

/-! ## Helper lemmas: filesystem and temp-directory search -/

theorem any_filter_false {l : List Entry} {p q : Entry → Bool}
    (h : l.any p = false) : (l.filter q).any p = false := by
  simp only [List.any_eq_false] at *
  intro a ha
  exact h a (List.mem_of_mem_filter ha)

theorem isDirAt_of_existsAt_false {fs : FS} {n : String}
    (h : fs.existsAt n = false) : fs.isDirAt n = false := by
  simp only [FS.existsAt, FS.isDirAt, List.any_eq_false] at *
  intro e he
  simp [h e he]

theorem rmtree_isDirAt_self (fs : FS) (n : String) :
    (fs.rmtreeAt n).isDirAt n = false := by
  simp only [FS.rmtreeAt, FS.isDirAt, List.any_eq_false]
  intro e he
  rw [List.mem_filter] at he
  have h2 := he.2
  cases h' : (e.name == n) with
  | false => simp [h']
  | true =>
    rw [beq_iff_eq] at h'
    simp [h'] at h2

theorem rmtree_isDirAt_false {fs : FS} {n v : String}
    (h : fs.isDirAt v = false) : (fs.rmtreeAt n).isDirAt v = false :=
  any_filter_false h

theorem cleanup_isDirAt_self (v : String) (fs : FS) :
    (cleanupFS v fs).isDirAt v = false := by
  unfold cleanupFS
  cases h : fs.isDirAt v with
  | false => simp [h]
  | true => simp [h, rmtree_isDirAt_self]

theorem filter_ne_of_existsAt_false {fs : FS} {t : String}
    (h : fs.existsAt t = false) :
    fs.entries.filter (fun e => e.name != t) = fs.entries := by
  rw [List.filter_eq_self]
  simp only [FS.existsAt, List.any_eq_false] at h
  intro a ha
  simpa using h a ha

theorem map_set_of_existsAt_false {fs : FS} {t : String} {c : List String}
    (h : fs.existsAt t = false) :
    (fs.entries.map fun e =>
      if e.name == t then { e with content := c } else e) = fs.entries := by
  have h1 : ∀ a ∈ fs.entries,
      (if a.name == t then { a with content := c } else a) = id a := by
    simp only [FS.existsAt, List.any_eq_false] at h
    intro a ha
    simp [h a ha]
  rw [List.map_congr_left h1, List.map_id]

theorem findFreeTemp_congr {fs : FS} {rng rng' : Nat → String} :
    ∀ fuel i, (∀ j, j < fuel → rng (i + j) = rng' (i + j)) →
      findFreeTemp fs rng i fuel = findFreeTemp fs rng' i fuel := by
  intro fuel
  induction fuel with
  | zero => intro i _; rfl
  | succ n ih =>
    intro i h
    have h0 : rng i = rng' i := by simpa using h 0 (Nat.succ_pos n)
    simp only [findFreeTemp, h0]
    cases hd : fs.isDirAt (tempName (rng' i)) with
    | true =>
      simp only [hd, if_true]
      exact ih (i + 1) fun j hj => by
        have := h (j + 1) (Nat.succ_lt_succ hj)
        simpa [Nat.add_assoc, Nat.add_comm 1 j] using this
    | false => simp [hd]

theorem findFreeTemp_bounds {fs : FS} {rng : Nat → String} :
    ∀ fuel i k, findFreeTemp fs rng i fuel = some k → i ≤ k ∧ k < i + fuel := by
  intro fuel
  induction fuel with
  | zero => intro i k h; simp [findFreeTemp] at h
  | succ n ih =>
    intro i k h
    simp only [findFreeTemp] at h
    cases hd : fs.isDirAt (tempName (rng i)) with
    | true =>
      rw [if_pos hd] at h
      have := ih (i + 1) k h
      omega
    | false =>
      rw [hd] at h
      simp at h
      omega

theorem findFreeTemp_free {fs : FS} {rng : Nat → String} :
    ∀ fuel i k, findFreeTemp fs rng i fuel = some k →
      fs.isDirAt (tempName (rng k)) = false := by
  intro fuel
  induction fuel with
  | zero => intro i k h; simp [findFreeTemp] at h
  | succ n ih =>
    intro i k h
    simp only [findFreeTemp] at h
    cases hd : fs.isDirAt (tempName (rng i)) with
    | true => rw [if_pos hd] at h; exact ih (i + 1) k h
    | false => rw [hd] at h; simp at h; rwa [← h]

theorem findFreeTemp_none_of {fs : FS} {rng : Nat → String} :
    ∀ fuel i, (∀ j, j < fuel → fs.isDirAt (tempName (rng (i + j))) = true) →
      findFreeTemp fs rng i fuel = none := by
  intro fuel
  induction fuel with
  | zero => intro i _; rfl
  | succ n ih =>
    intro i h
    have h0 : fs.isDirAt (tempName (rng i)) = true := by
      simpa using h 0 (Nat.succ_pos n)
    simp only [findFreeTemp, h0, if_true]
    exact ih (i + 1) fun j hj => by
      have := h (j + 1) (Nat.succ_lt_succ hj)
      simpa [Nat.add_assoc, Nat.add_comm 1 j] using this

theorem findFreeTemp_some_of {fs : FS} {rng : Nat → String} :
    ∀ fuel i k, k < fuel →
      (∀ j, j < k → fs.isDirAt (tempName (rng (i + j))) = true) →
      fs.isDirAt (tempName (rng (i + k))) = false →
      findFreeTemp fs rng i fuel = some (i + k) := by
  intro fuel
  induction fuel with
  | zero => intro i k hk; omega
  | succ n ih =>
    intro i k hk hcoll hfree
    cases k with
    | zero =>
      simp only [Nat.add_zero] at hfree
      simp [findFreeTemp, hfree]
    | succ m =>
      have h0 : fs.isDirAt (tempName (rng i)) = true := by
        simpa using hcoll 0 (Nat.succ_pos m)
      simp only [findFreeTemp, h0, if_true]
      have := ih (i + 1) m (by omega)
        (fun j hj => by
          have := hcoll (j + 1) (Nat.succ_lt_succ hj)
          simpa [Nat.add_assoc, Nat.add_comm 1 j] using this)
        (by
          have : i + 1 + m = i + (m + 1) := by omega
          rw [this]; exact hfree)
      rw [this]
      congr 1
      omega

theorem mkdir_setContent_eq {fs : FS} {t : String} {c : List String}
    (h : fs.existsAt t = false) :
    (fs.mkdirAt t).setContentAt t c = FS.mk true (⟨t, true, c⟩ :: fs.entries) := by
  simp only [FS.mkdirAt, FS.setContentAt, List.map_cons, beq_self_eq_true,
    if_true]
  rw [map_set_of_existsAt_false h]

theorem stage_existsAt_false {g : FS} {t v : String} {c : List String}
    (hnoV : g.existsAt v = false) (hne : t ≠ v) :
    (FS.mk true (⟨t, true, c⟩ :: g.entries)).existsAt v = false := by
  simp only [FS.existsAt, List.any_cons] at *
  simp [hne, hnoV]

theorem rename_after_stage {g : FS} {t v : String} {c : List String}
    (hfree : g.existsAt t = false) (hnoV : g.existsAt v = false) :
    (FS.mk true (⟨t, true, c⟩ :: g.entries)).renameAt t v =
      FS.mk true (⟨v, true, c⟩ :: g.entries) := by
  simp only [FS.renameAt, List.find?_cons, beq_self_eq_true]
  simp only [List.filter_cons, bne_self_eq_false, if_neg]
  have h1 : g.entries.filter (fun e => e.name != t) = g.entries :=
    filter_ne_of_existsAt_false hfree
  have h2 : g.entries.filter (fun e => e.name != v) = g.entries :=
    filter_ne_of_existsAt_false hnoV
  simp [h1, h2]

theorem deploy_success_eq (v : String) (c : List String) (rng : Nat → String)
    (fs : FS) (i : Nat) (hi : i < 100)
    (hcoll : ∀ j, j < i → (cleanupFS v fs).isDirAt (tempName (rng j)) = true)
    (hfree : (cleanupFS v fs).existsAt (tempName (rng i)) = false)
    (hne : tempName (rng i) ≠ v)
    (hnoV : (cleanupFS v fs).existsAt v = false) :
    deploy v (some c) rng fs =
      .ok ⟨true, ⟨v, true, c⟩ :: (cleanupFS v fs).entries⟩ := by
  have hfind : findFreeTemp (cleanupFS v fs) rng 0 100 = some i := by
    have h := @findFreeTemp_some_of (cleanupFS v fs) rng 100 0 i hi
      (fun j hj => by simpa using hcoll j hj)
      (by simpa using isDirAt_of_existsAt_false hfree)
    simpa using h
  simp only [deploy, hfind]
  rw [if_neg (by simp [hfree])]
  rw [mkdir_setContent_eq hfree]
  rw [if_pos rfl]
  rw [if_neg (by simp [stage_existsAt_false hnoV hne])]
  rw [rename_after_stage hfree hnoV]

theorem mkdir_rmtree_isDirAt {g : FS} {t v : String}
    (hclean : g.isDirAt v = false) :
    ((g.mkdirAt t).rmtreeAt t).isDirAt v = false := by
  by_cases hv : t = v
  · subst hv; exact rmtree_isDirAt_self _ _
  · apply rmtree_isDirAt_false
    have h : g.entries.any (fun e => e.name == v && e.isDir) = false := hclean
    simp only [FS.mkdirAt, FS.isDirAt, List.any_cons]
    simp [hv, h]

theorem deploy_extractFail_eq (v : String) (rng : Nat → String) (fs : FS)
    (i : Nat) (hi : i < 100)
    (hcoll : ∀ j, j < i → (cleanupFS v fs).isDirAt (tempName (rng j)) = true)
    (hfree : (cleanupFS v fs).existsAt (tempName (rng i)) = false) :
    deploy v none rng fs = .extractFail ⟨true, (cleanupFS v fs).entries⟩ := by
  have hfind : findFreeTemp (cleanupFS v fs) rng 0 100 = some i := by
    have h := @findFreeTemp_some_of (cleanupFS v fs) rng 100 0 i hi
      (fun j hj => by simpa using hcoll j hj)
      (by simpa using isDirAt_of_existsAt_false hfree)
    simpa using h
  simp only [deploy, hfind]
  rw [if_neg (by simp [hfree])]
  have hIsDir : ((cleanupFS v fs).mkdirAt (tempName (rng i))).isDirAt
      (tempName (rng i)) = true := by
    simp [FS.mkdirAt, FS.isDirAt]
  simp only [deployExcept, hIsDir, if_true]
  simp only [FS.rmtreeAt, FS.mkdirAt, List.filter_cons, bne_self_eq_false]
  simp [filter_ne_of_existsAt_false hfree]

theorem deploy_exhausted_eq (v : String) (p : Option (List String))
    (rng : Nat → String) (fs : FS)
    (hcoll : ∀ j, j < 100 → (cleanupFS v fs).isDirAt (tempName (rng j)) = true) :
    deploy v p rng fs = .tempFail (tempName (rng 99))
      ((cleanupFS v fs).rmtreeAt (tempName (rng 99))) := by
  have hfind : findFreeTemp (cleanupFS v fs) rng 0 100 = none :=
    findFreeTemp_none_of 100 0 (fun j hj => by simpa using hcoll j hj)
  simp only [deploy, hfind]
  simp [deployExcept, hcoll 99 (by omega)]

theorem deploy_congr (v : String) (p : Option (List String))
    {rng rng' : Nat → String} (fs : FS)
    (h : ∀ i, i < 100 → rng i = rng' i) :
    deploy v p rng fs = deploy v p rng' fs := by
  have hf : findFreeTemp (cleanupFS v fs) rng 0 100 =
      findFreeTemp (cleanupFS v fs) rng' 0 100 :=
    findFreeTemp_congr 100 0 (fun j hj => by simpa using h j hj)
  cases hfind : findFreeTemp (cleanupFS v fs) rng' 0 100 with
  | none =>
    simp only [deploy, hf, hfind]
    rw [h 99 (by omega)]
  | some i =>
    have hb := findFreeTemp_bounds 100 0 i (hf ▸ hfind)
    have hi : i < 100 := by omega
    simp only [deploy, hf, hfind]
    rw [h i hi]

theorem deploy_visibility (v : String) (p : Option (List String))
    (rng : Nat → String) (fs : FS) :
    (deploy v p rng fs).fs.isDirAt v = (deploy v p rng fs).isOk := by
  have hclean : (cleanupFS v fs).isDirAt v = false := cleanup_isDirAt_self v fs
  cases hfind : findFreeTemp (cleanupFS v fs) rng 0 100 with
  | none =>
    simp only [deploy, hfind, DeployResult.fs, DeployResult.isOk, deployExcept]
    cases hd : (cleanupFS v fs).isDirAt (tempName (rng 99)) with
    | true => simp [hd, rmtree_isDirAt_false hclean]
    | false => simp [hd, hclean]
  | some i =>
    have hfreeDir : (cleanupFS v fs).isDirAt (tempName (rng i)) = false :=
      findFreeTemp_free 100 0 i hfind
    cases hex : (cleanupFS v fs).existsAt (tempName (rng i)) with
    | true =>
      simp only [deploy, hfind, hex, if_true, deployExcept, hfreeDir, if_false,
        DeployResult.fs, DeployResult.isOk]
      simp [hfreeDir, hclean]
    | false =>
      cases p with
      | none =>
        simp only [deploy, hfind]
        rw [if_neg (by simp [hex])]
        have hIsDir : ((cleanupFS v fs).mkdirAt (tempName (rng i))).isDirAt
            (tempName (rng i)) = true := by
          simp [FS.mkdirAt, FS.isDirAt]
        simp only [deployExcept, hIsDir, if_true, DeployResult.fs,
          DeployResult.isOk]
        simp [mkdir_rmtree_isDirAt hclean]
      | some c =>
        simp only [deploy, hfind]
        rw [if_neg (by simp [hex])]
        rw [mkdir_setContent_eq hex]
        rw [if_pos rfl]
        cases hguard : (FS.mk true
              (⟨tempName (rng i), true, c⟩ :: (cleanupFS v fs).entries)).existsAt v
            && !(FS.mk true
              (⟨tempName (rng i), true, c⟩ :: (cleanupFS v fs).entries)).isDirAt v with
        | true =>
          rw [if_pos rfl]
          have hnd : (FS.mk true
              (⟨tempName (rng i), true, c⟩ :: (cleanupFS v fs).entries)).isDirAt v
                = false := by
            have h2 := (Bool.and_eq_true _ _).mp hguard
            simpa using h2.2
          have hIsDir : (FS.mk true
              (⟨tempName (rng i), true, c⟩ :: (cleanupFS v fs).entries)).isDirAt
                (tempName (rng i)) = true := by
            simp [FS.isDirAt]
          simp only [deployExcept, hIsDir, if_true, DeployResult.fs,
            DeployResult.isOk]
          simp [rmtree_isDirAt_false hnd]
        | false =>
          rw [if_neg (by simp)]
          simp only [DeployResult.fs, DeployResult.isOk]
          simp [FS.renameAt, List.find?_cons, FS.isDirAt]

/-! ## Claim theorems: deploy protocol -/

/-- **C1**: `LocalResource.deploy` first calls `cleanup()`; then makes at
most 100 attempts to create a randomized temp directory as a sibling of the
canonical path, retrying with a new random name while the name already
exists, and raises a fatal error naming the last attempted path if all 100
attempts fail; after a successful `_deploy_to` into the secured temp
directory it ensures the canonical path's parent directory exists and
publishes the artifact by a single rename of the temp directory to the
canonical path — the only operation that makes the artifact visible under
the canonical name (the canonical directory exists in the outcome exactly
when deploy returned normally).  Part 3 exhibits the full protocol: the
result is built from the *cleaned* state, has the parent directory, carries
exactly the extracted payload under the canonical name, and the staging
directory is gone. -/
theorem c1_deploy_protocol (v : String) (p : Option (List String))
    (rng rng' : Nat → String) (fs : FS) :
    ((∀ j, j < 100 → rng j = rng' j) → deploy v p rng fs = deploy v p rng' fs)
    ∧
    ((∀ j, j < 100 → (cleanupFS v fs).isDirAt (tempName (rng j)) = true) →
      deploy v p rng fs = .tempFail (tempName (rng 99))
        ((cleanupFS v fs).rmtreeAt (tempName (rng 99))))
    ∧
    (∀ c i, i < 100 →
      (∀ j, j < i → (cleanupFS v fs).isDirAt (tempName (rng j)) = true) →
      (cleanupFS v fs).existsAt (tempName (rng i)) = false →
      tempName (rng i) ≠ v →
      (cleanupFS v fs).existsAt v = false →
      deploy v (some c) rng fs =
        .ok ⟨true, ⟨v, true, c⟩ :: (cleanupFS v fs).entries⟩)
    ∧
    ((deploy v p rng fs).fs.isDirAt v = (deploy v p rng fs).isOk) := by
  refine ⟨fun h => deploy_congr v p fs h,
    fun h => deploy_exhausted_eq v p rng fs h,
    fun c i hi hcoll hfree hne hnoV =>
      deploy_success_eq v c rng fs i hi hcoll hfree hne hnoV,
    deploy_visibility v p rng fs⟩

/-- Witness for `c1_deploy_protocol` at concrete inputs: an empty cache
with a constant random stream deploys `["hello.txt"]` under version `1.0`;
with every temp name colliding the deploy fails naming the last path. -/
theorem c1_deploy_protocol_witness :
    (deploy "1.0" (some ["hello.txt"]) (fun _ => "aa") ⟨true, []⟩ =
      .ok ⟨true, [⟨"1.0", true, ["hello.txt"]⟩]⟩)
    ∧
    (deploy "1.0" (some []) (fun _ => "aa")
        ⟨true, [⟨"aa.temp", true, []⟩]⟩ =
      .tempFail "aa.temp" ⟨true, []⟩) := by
  constructor
  · have h := (c1_deploy_protocol "1.0" (some ["hello.txt"])
      (fun _ => "aa") (fun _ => "aa") ⟨true, []⟩).2.2.1
      ["hello.txt"] 0 (by decide) (by decide) (by decide) (by decide)
      (by decide)
    simpa using h
  · have h := (c1_deploy_protocol "1.0" (some [])
      (fun _ => "aa") (fun _ => "aa")
      ⟨true, [⟨"aa.temp", true, []⟩]⟩).2.1 (by decide)
    simpa using h

/-- **C2**: if the delegated extraction step (`self._deploy_to`) raises,
the staging directory is removed and the exception re-raised (the
`extractFail` outcome); the resulting state has no staging directory and
the canonical path is absent (cleanup removed it before staging began), so
a failed deploy leaves the resource ABSENT, never a half-installed
canonical directory. -/
theorem c2_deploy_failure_absent (v : String) (rng : Nat → String) (fs : FS)
    (i : Nat) (hi : i < 100)
    (hcoll : ∀ j, j < i → (cleanupFS v fs).isDirAt (tempName (rng j)) = true)
    (hfree : (cleanupFS v fs).existsAt (tempName (rng i)) = false) :
    deploy v none rng fs = .extractFail ⟨true, (cleanupFS v fs).entries⟩
    ∧ (FS.mk true (cleanupFS v fs).entries).existsAt (tempName (rng i)) = false
    ∧ (FS.mk true (cleanupFS v fs).entries).isDirAt v = false := by
  refine ⟨deploy_extractFail_eq v rng fs i hi hcoll hfree, ?_, ?_⟩
  · exact hfree
  · exact cleanup_isDirAt_self v fs

/-- Witness for `c2_deploy_failure_absent`: a forced `_deploy_to` failure
over a cache holding version `0.9` leaves the cleaned state with neither a
temp directory nor the canonical path. -/
theorem c2_deploy_failure_absent_witness :
    deploy "1.0" none (fun _ => "aa") ⟨true, [⟨"0.9", true, []⟩]⟩ =
      .extractFail ⟨true, [⟨"0.9", true, []⟩]⟩
    ∧ (FS.mk true [⟨"0.9", true, []⟩]).existsAt "aa.temp" = false
    ∧ (FS.mk true [⟨"0.9", true, []⟩]).isDirAt "1.0" = false := by
  have h := c2_deploy_failure_absent "1.0" (fun _ => "aa")
    ⟨true, [⟨"0.9", true, []⟩]⟩ 0 (by decide) (by decide) (by decide)
  simpa using h

/-! ## Claim theorem: HybridLock -/

/-- **C3**: the `HybridLock` reentrant-count invariant.  Acquiring while
the counter is already positive (the same thread re-entering, the
`threading.RLock` admitting it) returns normally without touching the
OS-level lock — no deadlock; only the `0 → 1` counter transition acquires
the OS-level inter-process lock, retrying that acquire exactly once more if
it raises; only the `1 → 0` transition on exit releases the OS lock and
attempts removal of the backing lock file, and an `os.unlink` failure is
swallowed (the exit is total and its counter and events do not depend on
the unlink outcome). -/
theorem c3_hybrid_lock (f1 f2 u : Bool) (st : LockState) :
    (1 ≤ st.counter →
      hlEnter f1 f2 st = ⟨true, { st with counter := st.counter + 1 }, []⟩)
    ∧
    (st.counter = 0 →
      (hlEnter f1 f2 st).events =
        (if f1 then [.osAcquire, .osAcquire] else [.osAcquire])
      ∧ (hlEnter f1 f2 st).ok = (!f1 || !f2)
      ∧ (hlEnter f1 f2 st).state.counter = 1)
    ∧
    ((hlExit u st).1.counter = st.counter - 1
      ∧ ((hlExit u st).2 = [.osRelease, .unlinkAttempt] ↔ st.counter = 1)
      ∧ (st.counter = 1 → (hlExit u st).1.osHeld = false)
      ∧ (st.counter ≠ 1 → (hlExit u st).2 = []))
    ∧
    ((hlExit true st).2 = (hlExit false st).2
      ∧ (hlExit true st).1.counter = (hlExit false st).1.counter) := by
  refine ⟨?_, ?_, ?_, ?_⟩
  · intro h
    have hne : ¬ st.counter + 1 = 1 := by omega
    simp [hlEnter, hne]
  · intro h
    have heq : st.counter + 1 = 1 := by omega
    cases f1 <;> cases f2 <;> simp [hlEnter, heq, h]
  · by_cases h : st.counter = 1
    · have heq : st.counter - 1 = 0 := by omega
      simp [hlExit, heq, h]
    · have hne : ¬ st.counter - 1 = 0 := by omega
      simp [hlExit, hne, h]
  · by_cases h : st.counter = 1
    · have heq : st.counter - 1 = 0 := by omega
      simp [hlExit, heq]
    · have hne : ¬ st.counter - 1 = 0 := by omega
      simp [hlExit, hne]

/-- Witness for `c3_hybrid_lock`: reentrant entry at counter 1 is a silent
counter bump; first entry at counter 0 with a failing first OS acquire
retries once and succeeds; exit from counter 1 releases and unlinks. -/
theorem c3_hybrid_lock_witness :
    hlEnter true false ⟨1, true, true⟩ = ⟨true, ⟨2, true, true⟩, []⟩
    ∧ (hlEnter true false ⟨0, false, false⟩).events =
        [.osAcquire, .osAcquire]
    ∧ ((hlExit false ⟨1, true, true⟩).2 = [.osRelease, .unlinkAttempt] ↔
        (1 : Int) = 1) := by
  refine ⟨?_, ?_, ?_⟩
  · exact (c3_hybrid_lock true false false ⟨1, true, true⟩).1 (by decide)
  · have h := ((c3_hybrid_lock true false false ⟨0, false, false⟩).2.1
      (by decide)).1
    simpa using h
  · exact (c3_hybrid_lock true false false ⟨1, true, true⟩).2.2.1.2.1

/-! ## Claim theorems: provide -/

theorem gav_mem_head {v : String} {c : List String} {l : List Entry}
    (h : strEndsWith v ".temp" = false) :
    v ∈ getAvailableVersions ⟨true, ⟨v, true, c⟩ :: l⟩ := by
  simp only [getAvailableVersions, if_pos rfl, List.filter_cons, h]
  simp

/-- **C4 (amended)**: `provide()` is a no-op when the in-process available
flag is set; otherwise it requires non-empty name and version (assertion
failures otherwise, name checked first), re-checks presence via
`get_available_versions()` under the identity lock and only deploys when
the version is absent, marking the resource available afterwards.  After a
successful deploying `provide()` a second call performs no deploy
(network / extraction) I/O, and — *provided the version string does not end
with the reserved `.temp` staging suffix* — the version is listed by
`get_available_versions()`. -/
theorem c4_provide_contract (payload : Option (List String))
    (rng : Nat → String) (st : RState) :
    (st.available = true → provide payload rng st = .ok st false)
    ∧
    (st.available = false → st.name = "" →
      provide payload rng st = .assertFailName st)
    ∧
    (st.available = false → st.name ≠ "" → st.version = "" →
      provide payload rng st = .assertFailVersion st)
    ∧
    (st.available = false → st.name ≠ "" → st.version ≠ "" →
      st.version ∈ getAvailableVersions st.fs →
      provide payload rng st = .ok { st with available := true } false)
    ∧
    (∀ c i, st.available = false → st.name ≠ "" → st.version ≠ "" →
      st.version ∉ getAvailableVersions st.fs →
      i < 100 →
      (∀ j, j < i →
        (cleanupFS st.version st.fs).isDirAt (tempName (rng j)) = true) →
      (cleanupFS st.version st.fs).existsAt (tempName (rng i)) = false →
      tempName (rng i) ≠ st.version →
      (cleanupFS st.version st.fs).existsAt st.version = false →
      provide (some c) rng st =
        .ok ⟨true, st.name, st.version,
          ⟨true, ⟨st.version, true, c⟩ ::
            (cleanupFS st.version st.fs).entries⟩⟩ true
      ∧ (strEndsWith st.version ".temp" = false →
          st.version ∈ getAvailableVersions
            ⟨true, ⟨st.version, true, c⟩ ::
              (cleanupFS st.version st.fs).entries⟩)
      ∧ (∀ payload' rng',
          provide payload' rng'
            ⟨true, st.name, st.version,
              ⟨true, ⟨st.version, true, c⟩ ::
                (cleanupFS st.version st.fs).entries⟩⟩ =
          .ok ⟨true, st.name, st.version,
            ⟨true, ⟨st.version, true, c⟩ ::
              (cleanupFS st.version st.fs).entries⟩⟩ false)) := by
  refine ⟨?_, ?_, ?_, ?_, ?_⟩
  · intro h; simp [provide, h]
  · intro h hn; simp [provide, h, hn]
  · intro h hn hv; simp [provide, h, hn, hv]
  · intro h hn hv hmem; simp [provide, h, hn, hv, hmem]
  · intro c i h hn hv hmem hi hcoll hfree hne hnoV
    have hdep := deploy_success_eq st.version c rng st.fs i hi hcoll hfree
      hne hnoV
    refine ⟨?_, fun ht => gav_mem_head ht, fun payload' rng' => by
      simp [provide]⟩
    simp [provide, h, hn, hv, hmem, hdep]

/-- Witness for `c4_provide_contract`: providing version `1.0` of `demo`
over an empty cache deploys it, lists it afterwards, and a second call is
a no-op; a resource already flagged available is returned untouched. -/
theorem c4_provide_contract_witness :
    provide (some ["hello.txt"]) (fun _ => "aa")
        ⟨true, "demo", "1.0", ⟨true, []⟩⟩ =
      .ok ⟨true, "demo", "1.0", ⟨true, []⟩⟩ false
    ∧ (provide (some ["hello.txt"]) (fun _ => "aa")
        ⟨false, "demo", "1.0", ⟨true, []⟩⟩ =
      .ok ⟨true, "demo", "1.0", ⟨true, [⟨"1.0", true, ["hello.txt"]⟩]⟩⟩ true
      ∧ (strEndsWith "1.0" ".temp" = false →
          "1.0" ∈ getAvailableVersions ⟨true, [⟨"1.0", true, ["hello.txt"]⟩]⟩)
      ∧ (∀ payload' rng',
          provide payload' rng'
            ⟨true, "demo", "1.0", ⟨true, [⟨"1.0", true, ["hello.txt"]⟩]⟩⟩ =
          .ok ⟨true, "demo", "1.0",
            ⟨true, [⟨"1.0", true, ["hello.txt"]⟩]⟩⟩ false)) := by
  constructor
  · exact (c4_provide_contract (some ["hello.txt"]) (fun _ => "aa")
      ⟨true, "demo", "1.0", ⟨true, []⟩⟩).1 rfl
  · have h := (c4_provide_contract (some ["hello.txt"]) (fun _ => "aa")
      ⟨false, "demo", "1.0", ⟨true, []⟩⟩).2.2.2.2 ["hello.txt"] 0
      rfl (by decide) (by decide) (by decide) (by decide)
      (by intro j hj; omega) (by decide) (by decide) (by decide)
    simpa using h

/-- Counterexample to **C4** as stated: a resource whose version string
ends in `.temp` (here `1.0.temp`) is provided successfully — `deploy` runs
and renames the staging directory to the canonical path — yet
`get_available_versions()` does not list it, because the listing filters
out every name with the `.temp` suffix. -/
theorem c4_counterexample :
    provide (some []) (fun _ => "aa")
        ⟨false, "demo", "1.0.temp", ⟨true, []⟩⟩ =
      .ok ⟨true, "demo", "1.0.temp", ⟨true, [⟨"1.0.temp", true, []⟩]⟩⟩ true
    ∧ "1.0.temp" ∉ getAvailableVersions ⟨true, [⟨"1.0.temp", true, []⟩]⟩ := by
  constructor
  · decide
  · decide

/-! ## Claim theorems: PyPI release selection -/

/-- **C5 (amended)**: in `PyPiPackage.release_info`, a version that
published a single `source` artifact is accepted as is; otherwise the
release list is filtered to filenames containing the platform tag or an
`any` tag.  An empty filtered set is a fatal assertion failure with a
diagnostic listing all candidates and which were selected; but when more
than one candidate remains the assertion `len(releases) >= 1` passes and
the *first* remaining candidate is selected silently — ties are not an
error. -/
theorem c5_release_selection (releases : List ReleaseRecord) :
    (∀ r, releases = [r] → r.python_version = "source" →
      releaseInfo releases = .ok r)
    ∧
    ((∀ r, releases = [r] → r.python_version ≠ "source") →
      selectReleases releases = filterPlatform releases)
    ∧
    ((∀ r, releases = [r] → r.python_version ≠ "source") →
      filterPlatform releases = [] →
      releaseInfo releases = .error (releaseErrMsg releases []))
    ∧
    (∀ r rest, (∀ r', releases = [r'] → r'.python_version ≠ "source") →
      filterPlatform releases = r :: rest →
      releaseInfo releases = .ok r) := by
  have hsel : (∀ r, releases = [r] → r.python_version ≠ "source") →
      selectReleases releases = filterPlatform releases := by
    intro h
    match releases with
    | [] => rfl
    | [a] =>
      have := h a rfl
      simp [selectReleases, this]
    | a :: b :: t => rfl
  refine ⟨?_, hsel, ?_, ?_⟩
  · intro r hr hsrc
    subst hr
    simp [releaseInfo, selectReleases, hsrc]
  · intro h hempty
    have h2 := hsel h
    simp [releaseInfo, h2, hempty]
  · intro r rest h hfilter
    have h2 := hsel h
    simp [releaseInfo, h2, hfilter]

/-- Witness for `c5_release_selection`: a lone `source` artifact is taken;
a lone foreign-platform wheel yields the assertion failure with its
diagnostic; two `win_amd64` wheels yield the first without error. -/
theorem c5_release_selection_witness :
    releaseInfo [⟨"pkg-1.0.tar.gz", "source", "u1"⟩] =
      .ok ⟨"pkg-1.0.tar.gz", "source", "u1"⟩
    ∧ releaseInfo [⟨"pkg-1.0-cp39-macos.whl", "cp39", "u1"⟩] =
      .error "No unique release available from pkg-1.0-cp39-macos.whl"
    ∧ releaseInfo
        [⟨"pkg-1.0-cp39-win_amd64.whl", "cp39", "u1"⟩,
         ⟨"pkg-1.0-cp310-win_amd64.whl", "cp310", "u2"⟩] =
      .ok ⟨"pkg-1.0-cp39-win_amd64.whl", "cp39", "u1"⟩ := by
  refine ⟨?_, ?_, ?_⟩
  · exact (c5_release_selection [⟨"pkg-1.0.tar.gz", "source", "u1"⟩]).1
      ⟨"pkg-1.0.tar.gz", "source", "u1"⟩ rfl rfl
  · have h := (c5_release_selection
      [⟨"pkg-1.0-cp39-macos.whl", "cp39", "u1"⟩]).2.2.1
      (by intro r hr; cases hr; decide) (by rfl)
    simpa using h
  · exact (c5_release_selection
      [⟨"pkg-1.0-cp39-win_amd64.whl", "cp39", "u1"⟩,
       ⟨"pkg-1.0-cp310-win_amd64.whl", "cp310", "u2"⟩]).2.2.2
      ⟨"pkg-1.0-cp39-win_amd64.whl", "cp39", "u1"⟩
      [⟨"pkg-1.0-cp310-win_amd64.whl", "cp310", "u2"⟩]
      (by intro r hr; cases hr) (by rfl)

/-- Counterexample to **C5** as stated: the requested version published two
`win_amd64` wheels; both survive the platform filter, yet `release_info`
raises no assertion failure — the assertion only checks
`len(releases) >= 1` — and the first candidate is returned silently. -/
theorem c5_counterexample :
    releaseInfo
        [⟨"pkg-1.0-cp39-win_amd64.whl", "cp39", "u1"⟩,
         ⟨"pkg-1.0-cp310-win_amd64.whl", "cp310", "u2"⟩] =
      .ok ⟨"pkg-1.0-cp39-win_amd64.whl", "cp39", "u1"⟩
    ∧ (filterPlatform
        [⟨"pkg-1.0-cp39-win_amd64.whl", "cp39", "u1"⟩,
         ⟨"pkg-1.0-cp310-win_amd64.whl", "cp310", "u2"⟩]).length = 2 := by
  exact ⟨rfl, rfl⟩

/-! ## Claim theorems: archive extraction map -/

/-- **C6**: for every file entry of the archive, `_deploy_to` selects the
*first* extraction-map key (after substituting resource attribute
placeholders) that is a string prefix of the entry path, strips the
matched prefix and prepends the mapped destination; entries matching no
key are skipped entirely without error; a computed destination beginning
with a path separator is a fatal assertion failure. -/
theorem c6_extraction_map (subst : List Char → List Char)
    (extraction : List (List Char × List Char)) (f : List Char)
    (files : List (List Char)) :
    (destFor subst extraction f =
      (extraction.find? fun kv => (subst kv.1).isPrefixOf f).map
        fun kv => kv.2 ++ f.drop (subst kv.1).length)
    ∧
    (destFor subst extraction f = none →
      deployTo subst extraction (f :: files) = deployTo subst extraction files)
    ∧
    (∀ d, destFor subst extraction f = some d → d.head? = some '/' →
      deployTo subst extraction (f :: files) = .error ()) := by
  refine ⟨?_, ?_, ?_⟩
  · induction extraction with
    | nil => rfl
    | cons kv rest ih =>
      obtain ⟨k, p⟩ := kv
      simp only [destFor, List.find?_cons]
      cases h : (subst k).isPrefixOf f with
      | true => simp [h]
      | false => simp [h, ih]
  · intro h
    simp [deployTo, h]
  · intro d hdest hhead
    have hcond : (d.isEmpty || d.head? == some '/') = true := by
      simp [hhead]
    simp [deployTo, hdest, hcond]

/-- Witness for `c6_extraction_map`: with the map
`{'pkg/bin/': {'path': ''}}`, the entry `pkg/readme.txt` matches no key
and is skipped, while a map rewriting to an absolute destination
(`{'': {'path': '/abs'}}`) trips the assertion. -/
theorem c6_extraction_map_witness :
    (deployTo id [("pkg/bin/".data, "".data)]
        ("pkg/readme.txt".data :: ["pkg/bin/tool.exe".data]) =
      deployTo id [("pkg/bin/".data, "".data)] ["pkg/bin/tool.exe".data])
    ∧ deployTo id [("".data, "/abs".data)]
        ("a.txt".data :: []) = .error () := by
  constructor
  · exact (c6_extraction_map id [("pkg/bin/".data, "".data)]
      "pkg/readme.txt".data ["pkg/bin/tool.exe".data]).2.1 rfl
  · exact (c6_extraction_map id [("".data, "/abs".data)]
      "a.txt".data []).2.2 "/absa.txt".data rfl rfl

/-- Counterexample to **C7** as stated: with the extraction map
`{'bin/': {'path': ''}}`, *neither* `pkg/bin/tool.exe` nor
`pkg/readme.txt` starts with the key `bin/` (matching is a prefix test on
the whole entry path), so both entries are skipped and no file at all is
produced — not the claimed single `tool.exe`. -/
theorem c7_counterexample :
    deployTo id [("bin/".data, "".data)]
        ["pkg/bin/tool.exe".data, "pkg/readme.txt".data] = .ok []
    ∧ deployTo id [("bin/".data, "".data)]
        ["pkg/bin/tool.exe".data, "pkg/readme.txt".data] ≠
      .ok ["tool.exe".data] := by
  refine ⟨rfl, fun h => ?_⟩
  have h2 : (Except.ok ([] : List (List Char)) : Except Unit (List (List Char)))
      = .ok ["tool.exe".data] := h
  simp at h2

/-- **C7 (amended)**: with the extraction map `{'bin/': {'path': ''}}` both
archive entries are skipped and nothing is extracted; the key must name
the whole path prefix — with `{'pkg/bin/': {'path': ''}}` exactly one
file, `tool.exe`, is produced at the destination root and
`pkg/readme.txt` is skipped. -/
theorem c7_extraction_example :
    deployTo id [("bin/".data, "".data)]
        ["pkg/bin/tool.exe".data, "pkg/readme.txt".data] = .ok []
    ∧ deployTo id [("pkg/bin/".data, "".data)]
        ["pkg/bin/tool.exe".data, "pkg/readme.txt".data] =
      .ok ["tool.exe".data] := by
  exact ⟨rfl, rfl⟩

/-! ## Claim theorems: activation -/

theorem aP_guard {ok : String → Bool} {p : Pkg} (h : p.activatedF = true) :
    activateP ok p = ⟨p, [], false⟩ := by
  cases p with
  | mk n a av reqs =>
    simp only [Pkg.activatedF] at h
    simp [activateP, h]

theorem aP_state_activated {ok : String → Bool} {p : Pkg}
    (h : (activateP ok p).raised = false) :
    (activateP ok p).state.activatedF = true := by
  cases p with
  | mk n a av reqs =>
    cases ha : a with
    | true => simp [activateP, ha, Pkg.activatedF]
    | false =>
      cases hr : (activateL ok reqs).raised with
      | true => simp [activateP, ha, hr] at h
      | false =>
        cases hok : ok n with
        | true => simp [activateP, ha, hr, hok, Pkg.activatedF]
        | false => simp [activateP, ha, hr, hok] at h

theorem aP_idem {ok ok' : String → Bool} {p : Pkg}
    (h : (activateP ok p).raised = false) :
    activateP ok' (activateP ok p).state = ⟨(activateP ok p).state, [], false⟩ :=
  aP_guard (aP_state_activated h)

theorem aL_idem {ok ok' : String → Bool} :
    ∀ {ps : List Pkg}, (activateL ok ps).raised = false →
      activateL ok' (activateL ok ps).states =
        ⟨(activateL ok ps).states, [], false⟩ := by
  intro ps
  induction ps with
  | nil => intro _; rfl
  | cons p rest ih =>
    intro h
    cases hr : (activateP ok p).raised with
    | true => simp [activateL, hr] at h
    | false =>
      have hrest : (activateL ok rest).raised = false := by
        simp only [activateL, hr] at h
        simpa [hr] using h
      have hp := @aP_idem ok ok' p hr
      have hstate : (activateP ok' (activateP ok p).state).raised = false := by
        rw [hp]
      simp only [activateL, hr, if_neg]
      simp only [Bool.false_eq_true, if_false]
      simp only [activateL, hp, hstate]
      simp [ih hrest]

/-- **C8**: `PythonPackage.activate()` is guarded by the dedicated
`_activated` flag (the guard never consults `_available`: the requirement
list below activates under any value of `av`); a non-activated package
first activates its requirements recursively and performs the importing
side effect last, exactly once across any number of calls (after a
successful call every later call on the resulting object is a silent
no-op); if the import raises, the package is left *not* marked activated
and a subsequent call retries the import. -/
theorem c8_activate (ok ok' : String → Bool) (p : Pkg) (n : String)
    (av : Bool) (reqs : List Pkg) :
    (p.activatedF = true → activateP ok p = ⟨p, [], false⟩)
    ∧
    ((activateP ok p).raised = false →
      activateP ok' (activateP ok p).state =
        ⟨(activateP ok p).state, [], false⟩)
    ∧
    ((activateL ok reqs).raised = false → ok n = true →
      activateP ok (.mk n false av reqs) =
        ⟨.mk n true true (activateL ok reqs).states,
          (activateL ok reqs).events ++ [n], false⟩)
    ∧
    ((activateL ok reqs).raised = false → ok n = false →
      activateP ok (.mk n false av reqs) =
        ⟨.mk n false true (activateL ok reqs).states,
          (activateL ok reqs).events ++ [n], true⟩
      ∧ (ok' n = true →
          activateP ok' (.mk n false true (activateL ok reqs).states) =
            ⟨.mk n true true (activateL ok reqs).states, [n], false⟩)) := by
  refine ⟨fun h => aP_guard h, fun h => aP_idem h, ?_, ?_⟩
  · intro hr hok
    simp [activateP, hr, hok]
  · intro hr hok
    refine ⟨by simp [activateP, hr, hok], fun hok' => ?_⟩
    have hidem := @aL_idem ok ok' reqs hr
    have hraised : (activateL ok' (activateL ok reqs).states).raised
        = false := by rw [hidem]
    simp [activateP, hidem, hraised, hok']

/-- Witness for `c8_activate`: a package `m` with requirements `r1`, `r2`
activates the requirements' imports before its own and exactly once; with
`__import__('m')` failing, `m` stays unactivated and a retry imports only
`m`. -/
theorem c8_activate_witness :
    activateP (fun _ => true)
        (.mk "m" false false
          [.mk "r1" false false [], .mk "r2" false false []]) =
      ⟨.mk "m" true true [.mk "r1" true true [], .mk "r2" true true []],
        ["r1", "r2", "m"], false⟩
    ∧ activateP (fun s => !(s == "m"))
        (.mk "m" false false
          [.mk "r1" false false [], .mk "r2" false false []]) =
      ⟨.mk "m" false true [.mk "r1" true true [], .mk "r2" true true []],
        ["r1", "r2", "m"], true⟩
    ∧ activateP (fun _ => true)
        (.mk "m" false true
          [.mk "r1" true true [], .mk "r2" true true []]) =
      ⟨.mk "m" true true [.mk "r1" true true [], .mk "r2" true true []],
        ["m"], false⟩ := by
  refine ⟨?_, ?_, ?_⟩
  · exact (c8_activate (fun _ => true) (fun _ => true)
      (.mk "x" true true []) "m" false
      [.mk "r1" false false [], .mk "r2" false false []]).2.2.1 rfl rfl
  · exact ((c8_activate (fun s => !(s == "m")) (fun _ => true)
      (.mk "x" true true []) "m" false
      [.mk "r1" false false [], .mk "r2" false false []]).2.2.2 rfl rfl).1
  · exact ((c8_activate (fun s => !(s == "m")) (fun _ => true)
      (.mk "x" true true []) "m" false
      [.mk "r1" false false [], .mk "r2" false false []]).2.2.2 rfl rfl).2 rfl

/-! ## Claim theorems: version listing vs. lock files -/

theorem lockFileName_not_temp (v : String) :
    strEndsWith (lockFileName v) ".temp" = false := by
  unfold strEndsWith lockFileName
  cases h : (".temp".data.isSuffixOf ((v ++ ".lock").data)) with
  | false => rfl
  | true =>
    exfalso
    have hsuf := List.isSuffixOf_iff_suffix.mp h
    rw [String.data_append] at hsuf
    obtain ⟨s, hs⟩ := hsuf
    have hlen : (".temp".data).length = (".lock".data).length := by decide
    have h2 := (List.append_inj' hs hlen).2
    exact absurd h2 (by decide)

/-- **C9**: `get_available_versions()` filters the parent directory's
immediate children only by the `.temp` name suffix and does not require
them to be directories: every entry (file or directory) whose name lacks
that suffix is returned — in particular a leftover lock file named
`<version>.lock` (the basename of the `HybridLock` key
`path.as_posix() + '.lock'`), whatever its kind `isD`, is always listed,
since a name ending in `.lock` never ends in `.temp`. -/
theorem c9_available_versions_filter (fs : FS) (v : String) :
    (fs.parentExists = true →
      ∀ e, e ∈ fs.entries → strEndsWith e.name ".temp" = false →
        e.name ∈ getAvailableVersions fs)
    ∧ strEndsWith (lockFileName v) ".temp" = false
    ∧ (fs.parentExists = true →
      ∀ (isD : Bool) (c : List String),
        Entry.mk (lockFileName v) isD c ∈ fs.entries →
        lockFileName v ∈ getAvailableVersions fs) := by
  have hmem : fs.parentExists = true →
      ∀ e, e ∈ fs.entries → strEndsWith e.name ".temp" = false →
        e.name ∈ getAvailableVersions fs := by
    intro hpe e he hend
    simp only [getAvailableVersions, hpe, if_true, List.mem_map]
    exact ⟨e, List.mem_filter.mpr ⟨he, by simp [hend]⟩, rfl⟩
  refine ⟨hmem, lockFileName_not_temp v, fun hpe isD c hin => ?_⟩
  exact hmem hpe _ hin (lockFileName_not_temp v)

/-- Witness for `c9_available_versions_filter`: a parent directory holding
only the plain file `1.0.lock` (a leftover lock file) reports `1.0.lock`
as an available version. -/
theorem c9_available_versions_filter_witness :
    "1.0.lock" ∈ getAvailableVersions ⟨true, [⟨"1.0.lock", false, []⟩]⟩ := by
  have h := (c9_available_versions_filter
    ⟨true, [⟨"1.0.lock", false, []⟩]⟩ "1.0").2.2 rfl false []
    (by simp [lockFileName])
  simpa [lockFileName] using h

/-! ## Claim theorems: keyword-argument construction -/

theorem resourceInit_cons_none {α : Type} (defaults : String → Option α)
    (k' : String) (rest : List (String × Option α)) :
    resourceInit defaults ((k', none) :: rest) = resourceInit defaults rest :=
  rfl

theorem resourceInit_cons_some {α : Type} (defaults : String → Option α)
    (k' : String) (v : α) (rest : List (String × Option α)) :
    resourceInit defaults ((k', some v) :: rest) =
      resourceInit (fun q => if q = k' then some v else defaults q) rest :=
  rfl

theorem resourceInit_none_ignored {α : Type} :
    ∀ (kwargs : List (String × Option α)) (defaults : String → Option α)
      (k : String),
      (∀ p, p ∈ kwargs → p.1 = k → p.2 = none) →
      resourceInit defaults kwargs k = defaults k := by
  intro kwargs
  induction kwargs with
  | nil => intro defaults k _; rfl
  | cons q rest ih =>
    intro defaults k h
    obtain ⟨k', val⟩ := q
    cases val with
    | none =>
      rw [resourceInit_cons_none]
      exact ih defaults k (fun p hp => h p (List.mem_cons_of_mem _ hp))
    | some v =>
      have hk' : ¬ k = k' := by
        intro he
        have := h (k', some v) (List.mem_cons_self _ _) he.symm
        simp at this
      rw [resourceInit_cons_some]
      rw [ih _ k (fun p hp => h p (List.mem_cons_of_mem _ hp))]
      simp [hk']

theorem resourceInit_changed {α : Type} :
    ∀ (kwargs : List (String × Option α)) (defaults : String → Option α)
      (k : String),
      resourceInit defaults kwargs k ≠ defaults k →
      ∃ v, (k, some v) ∈ kwargs ∧ resourceInit defaults kwargs k = some v := by
  intro kwargs
  induction kwargs with
  | nil => intro defaults k h; exact absurd rfl h
  | cons q rest ih =>
    intro defaults k h
    obtain ⟨k', val⟩ := q
    cases val with
    | none =>
      rw [resourceInit_cons_none] at h ⊢
      obtain ⟨v, hv, he⟩ := ih defaults k h
      exact ⟨v, List.mem_cons_of_mem _ hv, he⟩
    | some v =>
      rw [resourceInit_cons_some] at h ⊢
      by_cases hr : resourceInit
          (fun q => if q = k' then some v else defaults q) rest k =
          (if k = k' then some v else defaults k)
      · by_cases hk : k = k'
        · subst hk
          refine ⟨v, List.mem_cons_self _ _, ?_⟩
          rw [hr]
          simp
        · exfalso
          apply h
          rw [hr]
          simp [hk]
      · obtain ⟨w, hw, he⟩ := ih _ k hr
        exact ⟨w, List.mem_cons_of_mem _ hw, he⟩

/-- **C10**: `Resource.__init__` sets only those attributes whose keyword
value is not `None`: a keyword whose every occurrence carries `None` leaves
the class-level default untouched, and an attribute can differ from its
default only through a keyword that carried an actual value; in
particular `PythonPackage(name=None, version=None)` (falsy `name` and
`version`, no extra kwargs) retains every class-level default. -/
theorem c10_resource_init {α : Type} (defaults : String → Option α)
    (truthy : α → Bool) (kwargs : List (String × Option α)) (k : String) :
    ((∀ p, p ∈ kwargs → p.1 = k → p.2 = none) →
      resourceInit defaults kwargs k = defaults k)
    ∧
    (resourceInit defaults kwargs k ≠ defaults k →
      ∃ v, (k, some v) ∈ kwargs ∧ resourceInit defaults kwargs k = some v)
    ∧
    pythonPackageInit defaults truthy none none [] k = defaults k := by
  exact ⟨resourceInit_none_ignored kwargs defaults k,
    resourceInit_changed kwargs defaults k, rfl⟩

/-- Witness for `c10_resource_init`: passing `name=None` keeps the class
default `cefpython3`; `PythonPackage(name=None, version=None)` keeps the
declared version `66.1`. -/
theorem c10_resource_init_witness :
    resourceInit (fun s => if s = "name" then some "cefpython3" else none)
        [("name", (none : Option String))] "name" = some "cefpython3"
    ∧ pythonPackageInit
        (fun s => if s = "version" then some "66.1" else none)
        (fun s => s != "") none none [] "version" = some "66.1" := by
  constructor
  · have h := (c10_resource_init
      (fun s => if s = "name" then some "cefpython3" else none)
      (fun s => s != "") [("name", (none : Option String))] "name").1
      (by
        intro p hp _
        rw [List.mem_singleton] at hp
        rw [hp])
    simpa using h
  · have h := (c10_resource_init
      (fun s => if s = "version" then some "66.1" else none)
      (fun s => s != "") ([] : List (String × Option String)) "version").2.2
    simpa using h
